import Mathlib

/-!
Shallow embedding of the youtube-profanity-check backend (`main.go`).

The program is an HTTP service: a handler submits `Job`s to a pool of
workers; each worker resolves a job by iterating a fallback list of
language tags, fetching a transcript per language with retry/backoff,
classifying upstream errors by substring matching, running a profanity
check over the formatted transcript, and writing exactly one response to
the job's capacity-1 channel.

Strings are modelled as `List Char`; the upstream client and the text
formatter are oracles passed as parameters.  The worker loop is embedded
as a pure, instrumented interpreter that also returns the trace of
observable events (rate-gate waits, backoff sleeps, fetch calls, the
final response emission), so that claims about retry counts, rate-gate
cadence and short-circuiting become statements about the trace.
-/

namespace YPC

/-- Strings as lists of characters (Go `string` values). -/
abbrev Str := List Char

/-- Go `strings.Contains`: does `sub` occur as a contiguous substring of `s`? -/
def containsSub (s sub : Str) : Bool :=
  match s with
  | [] => sub.isEmpty
  | _ :: t => sub.isPrefixOf s || containsSub t sub

/-- Go `strings.ToLower` (ASCII fragment, matching `Char.toLower`). -/
def lowerStr (s : Str) : Str := s.map Char.toLower

/-- Go `strings.TrimSpace`: drop leading and trailing whitespace. -/
def trimStr (s : Str) : Str :=
  ((s.dropWhile Char.isWhitespace).reverse.dropWhile Char.isWhitespace).reverse

/-- Accumulator-style splitting of a string into maximal whitespace-free
runs; `acc` holds the current field reversed. -/
def fieldsCore (acc : Str) : Str → List Str
  | [] => if acc.isEmpty then [] else [acc.reverse]
  | c :: cs =>
    if c.isWhitespace then
      if acc.isEmpty then fieldsCore [] cs else acc.reverse :: fieldsCore [] cs
    else fieldsCore (c :: acc) cs

/-- Go `strings.Fields`: whitespace-delimited tokens of `s`. -/
def goFields (s : Str) : List Str := fieldsCore [] s

/-- `containsProfanity` (main.go:292-300): lowercase the text, split into
whitespace-delimited words, report whether any word is in the set. -/
def containsProfanity (pw : List Str) (text : Str) : Bool :=
  (goFields (lowerStr text)).any (fun w => pw.contains w)

/-- `loadProfanityWords` (main.go:275-290): per line, trim surrounding
whitespace, skip blank lines, store the lowercased word. -/
def loadProfanityWords (lines : List Str) : List Str :=
  lines.filterMap (fun line =>
    let w := trimStr line
    if w.isEmpty then none else some (lowerStr w))

/-- A fetched transcript (opaque payload handed to the formatter). -/
abbrev Transcript := Str

/-- Outcome of one call to `client.GetTranscripts` (upstream client). -/
inductive FetchOutcome where
  | ok (transcripts : List Transcript)
  | err (msg : Str)
deriving DecidableEq

/-- A transcript fetch request (main.go:44-48); the capacity-1 response
channel is modelled separately (`responseChannelCapacity`). -/
structure Job where
  videoID : Str
  languages : List Str
deriving DecidableEq

/-- `TranscriptResponse` (main.go:23-27). -/
structure TranscriptResponse where
  videoID : Str
  profanity : Bool
  error : Str
deriving DecidableEq

/-- Observable events of one worker resolve loop. -/
inductive Event where
  | rateAcquire (lang : Str)
  | sleep (lang : Str) (seconds : Nat)
  | fetchCall (lang : Str) (attempt : Nat)
  | emit (r : TranscriptResponse)
deriving DecidableEq

/-- main.go:114. -/
def maxRetries : Nat := 3

/-- main.go:40 — the rate limiter ticks once every 2 seconds. -/
def rateLimiterIntervalSeconds : Nat := 2

/-- main.go:237 — the handler allocates `make(chan TranscriptResponse, 1)`. -/
def responseChannelCapacity : Nat := 1

/-- main.go:142-145: an error is retried as transient when its lowercased
text contains one of the network-related substrings. -/
def isTransientErr (msg : Str) : Bool :=
  containsSub (lowerStr msg) "timeout".data ||
  containsSub (lowerStr msg) "connection".data ||
  containsSub (lowerStr msg) "network".data ||
  containsSub (lowerStr msg) "temporary".data

/-- main.go:151: the "no captions for this language" error. -/
def isCaptionsNotFoundErr (msg : Str) : Bool :=
  containsSub (lowerStr msg) "captions not found".data

/-- main.go:197: the marker the code uses for private (Forbidden) content. -/
def errIsPrivate (msg : Str) : Bool :=
  containsSub (lowerStr msg) "private".data

/-- The fixed fallback list (main.go:100-109). -/
def fallbackLanguages : List Str :=
  ["en", "en-US", "en-GB", "en-CA", "en-AU", "en-IN",
   "es", "es-ES", "es-MX", "es-AR",
   "fr", "fr-FR", "fr-CA",
   "de", "de-DE",
   "it", "it-IT",
   "pt", "pt-BR", "pt-PT",
   "ja", "ko", "zh", "zh-CN", "zh-TW",
   "hi", "ar", "ru", "nl", "sv", "no", "da", "fi"].map String.data

/-- main.go:97-110: a single-element list `["en"]` is expanded to the fixed
fallback list; any other list is used as-is. -/
def expandLanguages (langs : List Str) : List Str :=
  match langs with
  | [l] => if l = "en".data then fallbackLanguages else [l]
  | _ => langs

/-- main.go:228-232: the handler defaults to `["en"]` when no `lang` query
parameter is supplied, else uses the single supplied tag. -/
def handlerLanguages (langParam : Str) : List Str :=
  if langParam.isEmpty then ["en".data] else [langParam]

/-- main.go:174. -/
def formatErrorMsg (e : Str) : Str := "failed to format transcript: ".data ++ e

/-- Go `%v` rendering of a string slice. -/
def goSliceFmt (xs : List Str) : Str :=
  "[".data ++ (List.intercalate " ".data xs) ++ "]".data

/-- main.go:191-209: the final error message synthesised when no language
yielded a transcript and no format error was recorded. -/
def synthFinalError (vid : Str) (lastError : Option Str) (langs : List Str) : Str :=
  match lastError with
  | some msg =>
    if containsSub (lowerStr msg) "captions not found".data then
      "No captions/transcripts are available for video ".data ++ vid ++
        ". This video may not have auto-generated or manual captions enabled.".data
    else if containsSub (lowerStr msg) "private".data then
      "Video ".data ++ vid ++ " is private and transcripts cannot be accessed.".data
    else if containsSub (lowerStr msg) "unavailable".data then
      "Video ".data ++ vid ++ " is unavailable or has been removed.".data
    else
      "Failed to fetch transcripts for video ".data ++ vid ++ ": ".data ++ msg
  | none =>
    "No transcripts found for video ".data ++ vid ++
      " in any of the attempted languages: ".data ++ goSliceFmt langs

/-- Mutable state of the worker resolve loop (main.go:92-113):
the response fields built so far, `lastError` and `foundTranscript`. -/
structure LoopState where
  profanity : Bool
  error : Str
  lastError : Option Str
  foundTranscript : Bool
deriving DecidableEq

/-- State at the top of the loop body (main.go:92-94, 112-113). -/
def initState : LoopState := ⟨false, [], none, false⟩

/-- The retry loop for one language (main.go:124-184), instrumented.
`rem` is the number of attempts remaining (`maxRetries - attempt`).
Returns the event trace of the loop and the state it leaves behind. -/
def runAttempts (fetch : Str → Nat → FetchOutcome) (fmtT : Transcript → Except Str Str)
    (pw : List Str) (lang : Str) : Nat → Nat → LoopState → List Event × LoopState
  | 0, _, st => ([], st)
  | rem + 1, attempt, st =>
    let pre : List Event := if attempt > 0 then [Event.sleep lang (2 ^ attempt)] else []
    let evs := pre ++ [Event.fetchCall lang attempt]
    match fetch lang attempt with
    | FetchOutcome.err msg =>
      let st1 := { st with lastError := some msg }
      if isTransientErr msg then
        let next := runAttempts fetch fmtT pw lang rem (attempt + 1) st1
        (evs ++ next.1, next.2)
      else if isCaptionsNotFoundErr msg then
        (evs, st1)
      else if attempt < maxRetries - 1 then
        let next := runAttempts fetch fmtT pw lang rem (attempt + 1) st1
        (evs ++ next.1, next.2)
      else
        (evs, st1)
    | FetchOutcome.ok ts =>
      match ts with
      | [] =>
        let next := runAttempts fetch fmtT pw lang rem (attempt + 1) st
        (evs ++ next.1, next.2)
      | t :: _ =>
        match fmtT t with
        | Except.error e => (evs, { st with error := formatErrorMsg e })
        | Except.ok text =>
          (evs, { st with profanity := containsProfanity pw text, foundTranscript := true })

/-- The language-fallback loop (main.go:117-189), instrumented: for each
language, one rate-gate wait then the retry loop; stops early as soon as a
transcript was found. -/
def runLanguages (fetch : Str → Nat → FetchOutcome) (fmtT : Transcript → Except Str Str)
    (pw : List Str) : List Str → LoopState → List Event × LoopState
  | [], st => ([], st)
  | lang :: rest, st =>
    let att := runAttempts fetch fmtT pw lang maxRetries 0 st
    let tail :=
      if att.2.foundTranscript then ([], att.2)
      else runLanguages fetch fmtT pw rest att.2
    (Event.rateAcquire lang :: (att.1 ++ tail.1), tail.2)

/-- One full worker loop body for one job (main.go:91-211): expand the
language list, run the fallback loop, synthesise the final error if
needed, emit exactly one response. -/
def processJob (fetch : Str → Nat → FetchOutcome) (fmtT : Transcript → Except Str Str)
    (pw : List Str) (job : Job) : List Event × TranscriptResponse :=
  let langs := expandLanguages job.languages
  let run := runLanguages fetch fmtT pw langs initState
  let st := run.2
  let finalError :=
    if !st.foundTranscript && st.error.isEmpty then
      synthFinalError job.videoID st.lastError langs
    else st.error
  let resp : TranscriptResponse := ⟨job.videoID, st.profanity, finalError⟩
  (run.1 ++ [Event.emit resp], resp)

/-- What the handler sends back to the HTTP client (main.go:249-272). -/
inductive HandlerReply where
  | errorReply (status : Nat) (msg : Str)
  | okReply (videoID : Str) (profanity : Bool)
deriving DecidableEq

/-- main.go:249-272: a response with a non-empty error is mapped to an
error reply (with a status from substring matching); only an error-free
response delivers the profanity verdict. -/
def handlerReply (r : TranscriptResponse) : HandlerReply :=
  if r.error.isEmpty then HandlerReply.okReply r.videoID r.profanity
  else
    let es := lowerStr r.error
    if containsSub es "no transcripts".data then HandlerReply.errorReply 404 r.error
    else if containsSub es "captions not found".data then HandlerReply.errorReply 404 r.error
    else if containsSub es "private".data || containsSub es "unavailable".data then
      HandlerReply.errorReply 403 r.error
    else HandlerReply.errorReply 500 r.error

/-- Classification of a fetch outcome as a transient (retry-worthy) error. -/
def isTransientOutcome : FetchOutcome → Bool
  | FetchOutcome.err m => isTransientErr m
  | FetchOutcome.ok _ => false

/-- The error message carried by a fetch outcome, if any. -/
def outcomeErrMsg : FetchOutcome → Option Str
  | FetchOutcome.err m => some m
  | FetchOutcome.ok _ => none

/-- Is the event a response emission? -/
def isEmitEv : Event → Bool
  | Event.emit _ => true
  | _ => false

/-- Is the event a rate-gate wait? -/
def isRateAcquireEv : Event → Bool
  | Event.rateAcquire _ => true
  | _ => false

/-- The trace of the retry loop for one language, computed without
threading the loop state (the trace never depends on it). -/
def attemptsTrace (f : Str → Nat → FetchOutcome) (g : Transcript → Except Str Str)
    (lang : Str) : Nat → Nat → List Event
  | 0, _ => []
  | rem + 1, attempt =>
    let pre : List Event := if attempt > 0 then [Event.sleep lang (2 ^ attempt)] else []
    let rest :=
      match f lang attempt with
      | FetchOutcome.err msg =>
        if isTransientErr msg then attemptsTrace f g lang rem (attempt + 1)
        else if isCaptionsNotFoundErr msg then []
        else if attempt < maxRetries - 1 then attemptsTrace f g lang rem (attempt + 1)
        else []
      | FetchOutcome.ok [] => attemptsTrace f g lang rem (attempt + 1)
      | FetchOutcome.ok (_ :: _) => []
    pre ++ Event.fetchCall lang attempt :: rest

/-- An upstream oracle that always reports private (Forbidden) content. -/
def fetchAlwaysPrivate : Str → Nat → FetchOutcome :=
  fun _ _ => FetchOutcome.err "video is private".data

/-- An upstream oracle whose fetches always succeed with an empty
transcript list. -/
def fetchAlwaysEmptyOk : Str → Nat → FetchOutcome :=
  fun _ _ => FetchOutcome.ok []

/-- An upstream oracle that always fails with a timeout (transient). -/
def fetchAlwaysTimeout : Str → Nat → FetchOutcome :=
  fun _ _ => FetchOutcome.err "request timeout".data

/-- An upstream oracle: language "en" yields transcript T1, language
"en-US" yields transcript T2, all other languages have no captions. -/
def fetchEnThenEnUS : Str → Nat → FetchOutcome := fun lang _ =>
  if lang = "en".data then FetchOutcome.ok ["T1".data]
  else if lang = "en-US".data then FetchOutcome.ok ["T2".data]
  else FetchOutcome.err "captions not found".data

/-- A formatter oracle that fails on transcript T1 and otherwise yields a
fixed text containing a flagged word. -/
def fmtFailOnT1 : Transcript → Except Str Str := fun t =>
  if t = "T1".data then Except.error "boom".data else Except.ok "damn it".data

/-- A formatter oracle that formats every transcript to itself. -/
def fmtOkId : Transcript → Except Str Str := fun t => Except.ok t

/-- A job carrying the default language tag (as built by the handler when
no `lang` query parameter is supplied). -/
def jobDefaultEn : Job := ⟨"abc".data, ["en".data]⟩

/-- A job carrying an explicit non-default language tag. -/
def jobExplicitFr : Job := ⟨"abc".data, ["fr".data]⟩

theorem toNat_ofNat_valid {m : Nat} (h : m.isValidChar) :
    (Char.ofNat m).toNat = m := by
  simp only [Char.ofNat, dif_pos h, Char.ofNatAux, Char.toNat, UInt32.toNat]
  simp

theorem toLower_toNat (c : Char) :
    (Char.toLower c).toNat =
      if 65 ≤ c.toNat ∧ c.toNat ≤ 90 then c.toNat + 32 else c.toNat := by
  unfold Char.toLower
  split
  · next h =>
    rw [if_pos (by omega)]
    exact toNat_ofNat_valid (Or.inl (by omega))
  · next h =>
    rw [if_neg (by omega)]

theorem char_eq_iff_toNat {c d : Char} : c = d ↔ c.toNat = d.toNat := by
  constructor
  · intro h; rw [h]
  · intro h
    exact Char.ext (UInt32.toNat.inj h)

theorem isWhitespace_iff_toNat (c : Char) :
    c.isWhitespace = true ↔
      (c.toNat = 32 ∨ c.toNat = 9 ∨ c.toNat = 13 ∨ c.toNat = 10) := by
  simp only [Char.isWhitespace, Bool.or_eq_true, decide_eq_true_eq]
  rw [char_eq_iff_toNat, char_eq_iff_toNat, char_eq_iff_toNat, char_eq_iff_toNat]
  have h1 : (' ').toNat = 32 := by decide
  have h2 : ('\t').toNat = 9 := by decide
  have h3 : ('\r').toNat = 13 := by decide
  have h4 : ('\n').toNat = 10 := by decide
  rw [h1, h2, h3, h4]
  tauto

theorem toLower_isWhitespace (c : Char) :
    (Char.toLower c).isWhitespace = c.isWhitespace := by
  by_cases h : c.isWhitespace = true
  · have hn := (isWhitespace_iff_toNat c).mp h
    have : (Char.toLower c).toNat = c.toNat := by
      rw [toLower_toNat]; rw [if_neg (by omega)]
    rw [h, (isWhitespace_iff_toNat _).mpr (by omega)]
  · have hn : ¬ (c.toNat = 32 ∨ c.toNat = 9 ∨ c.toNat = 13 ∨ c.toNat = 10) :=
      fun hh => h ((isWhitespace_iff_toNat c).mpr hh)
    have h2 : ¬ (Char.toLower c).isWhitespace = true := by
      intro hh
      have := (isWhitespace_iff_toNat _).mp hh
      rw [toLower_toNat] at this
      by_cases hr : 65 ≤ c.toNat ∧ c.toNat ≤ 90
      · rw [if_pos hr] at this; omega
      · rw [if_neg hr] at this; exact hn this
    simp only [Bool.not_eq_true] at h h2
    rw [h, h2]

theorem toLower_idem (c : Char) :
    Char.toLower (Char.toLower c) = Char.toLower c := by
  rw [char_eq_iff_toNat, toLower_toNat, toLower_toNat]
  by_cases hr : 65 ≤ c.toNat ∧ c.toNat ≤ 90
  · simp only [if_pos hr]
    rw [if_neg (by omega)]
  · simp only [if_neg hr]

theorem runAttempts_err_all (f : Str → Nat → FetchOutcome) (g : Transcript → Except Str Str)
    (pw : List Str) (lang : Str) (st : LoopState)
    (h : ∀ att, att < maxRetries → ∃ m, f lang att = FetchOutcome.err m ∧
      (isTransientErr m = true ∨ isCaptionsNotFoundErr m = false)) :
    runAttempts f g pw lang maxRetries 0 st =
      ([Event.fetchCall lang 0, Event.sleep lang 2, Event.fetchCall lang 1,
        Event.sleep lang 4, Event.fetchCall lang 2],
       { st with lastError := outcomeErrMsg (f lang 2) }) := by
  obtain ⟨m0, h0, c0⟩ := h 0 (by simp [maxRetries])
  obtain ⟨m1, h1, c1⟩ := h 1 (by simp [maxRetries])
  obtain ⟨m2, h2, c2⟩ := h 2 (by simp [maxRetries])
  rw [h2]
  rcases c0 with t0 | t0 <;> rcases c1 with t1 | t1 <;> rcases c2 with t2 | t2 <;>
    simp [maxRetries, runAttempts, h0, h1, h2, t0, t1, t2, outcomeErrMsg]

theorem runAttempts_empty_ok (f : Str → Nat → FetchOutcome) (g : Transcript → Except Str Str)
    (pw : List Str) (lang : Str) (st : LoopState)
    (h : ∀ att, att < maxRetries → f lang att = FetchOutcome.ok []) :
    runAttempts f g pw lang maxRetries 0 st =
      ([Event.fetchCall lang 0, Event.sleep lang 2, Event.fetchCall lang 1,
        Event.sleep lang 4, Event.fetchCall lang 2], st) := by
  have h0 := h 0 (by simp [maxRetries])
  have h1 := h 1 (by simp [maxRetries])
  have h2 := h 2 (by simp [maxRetries])
  simp [maxRetries, runAttempts, h0, h1, h2]

theorem runAttempts_fst (f : Str → Nat → FetchOutcome) (g : Transcript → Except Str Str)
    (pw : List Str) (lang : Str) : ∀ rem att st,
    (runAttempts f g pw lang rem att st).1 = attemptsTrace f g lang rem att := by
  intro rem
  induction rem with
  | zero => intro att st; rfl
  | succ n ih =>
    intro att st
    cases hf : f lang att with
    | err m =>
      by_cases ht : isTransientErr m <;> by_cases hc : isCaptionsNotFoundErr m <;>
        by_cases ha : att < maxRetries - 1 <;>
        simp [runAttempts, attemptsTrace, hf, ht, hc, ha, ih]
    | ok ts =>
      cases ts with
      | nil => simp [runAttempts, attemptsTrace, hf, ih]
      | cons t rest => cases hg : g t <;> simp [runAttempts, attemptsTrace, hf, hg]

theorem attemptsTrace_events (f : Str → Nat → FetchOutcome) (g : Transcript → Except Str Str)
    (lang : Str) : ∀ rem att, ∀ e ∈ attemptsTrace f g lang rem att,
    isEmitEv e = false ∧ isRateAcquireEv e = false := by
  intro rem
  induction rem with
  | zero => intro att e he; simp [attemptsTrace] at he
  | succ n ih =>
    intro att e he
    simp only [attemptsTrace] at he
    rw [List.mem_append] at he
    rcases he with he | he
    · by_cases h : att > 0
      · simp [h] at he; subst he; exact ⟨rfl, rfl⟩
      · simp [h] at he
    · rw [List.mem_cons] at he
      rcases he with rfl | he
      · exact ⟨rfl, rfl⟩
      · cases hf : f lang att with
        | err m =>
          rw [hf] at he
          by_cases ht : isTransientErr m <;> by_cases hc : isCaptionsNotFoundErr m <;>
            by_cases ha : att < maxRetries - 1 <;> simp [ht, hc, ha] at he <;>
            exact ih _ _ he
        | ok ts =>
          cases ts with
          | nil => rw [hf] at he; exact ih _ _ he
          | cons t rest => rw [hf] at he; simp at he

theorem runLanguages_no_emit (f : Str → Nat → FetchOutcome) (g : Transcript → Except Str Str)
    (pw : List Str) : ∀ langs st, ∀ e ∈ (runLanguages f g pw langs st).1,
    isEmitEv e = false := by
  intro langs
  induction langs with
  | nil => intro st e he; simp [runLanguages] at he
  | cons lang rest ih =>
    intro st e he
    simp only [runLanguages] at he
    rw [List.mem_cons] at he
    rcases he with rfl | he
    · rfl
    · rw [List.mem_append] at he
      rcases he with he | he
      · rw [runAttempts_fst] at he
        exact (attemptsTrace_events f g lang _ _ e he).1
      · by_cases hfound : (runAttempts f g pw lang maxRetries 0 st).2.foundTranscript
        · simp [hfound] at he
        · simp only [hfound, if_neg, Bool.false_eq_true, not_false_iff, if_false] at he
          exact ih _ e he

theorem runLanguages_shape (f : Str → Nat → FetchOutcome) (g : Transcript → Except Str Str)
    (pw : List Str) : ∀ langs st, ∃ n,
    (runLanguages f g pw langs st).1 =
      (langs.take n).flatMap
        (fun l => Event.rateAcquire l :: (runAttempts f g pw l maxRetries 0 initState).1) := by
  intro langs
  induction langs with
  | nil => intro st; exact ⟨0, rfl⟩
  | cons lang rest ih =>
    intro st
    by_cases hfound : (runAttempts f g pw lang maxRetries 0 st).2.foundTranscript
    · refine ⟨1, ?_⟩
      simp [runLanguages, hfound, runAttempts_fst]
    · obtain ⟨n, hn⟩ := ih (runAttempts f g pw lang maxRetries 0 st).2
      refine ⟨n + 1, ?_⟩
      simp [runLanguages, hfound, hn, runAttempts_fst]

theorem synthFinalError_ne_nil (vid : Str) (le : Option Str) (langs : List Str) :
    synthFinalError vid le langs ≠ [] := by
  cases le with
  | some m =>
    simp only [synthFinalError]
    split
    · simp
    · split
      · simp
      · split
        · simp
        · simp
  | none =>
    simp only [synthFinalError]
    simp

theorem runLanguages_err_all (f : Str → Nat → FetchOutcome) (g : Transcript → Except Str Str)
    (pw : List Str)
    (h : ∀ lang att, att < maxRetries → ∃ m, f lang att = FetchOutcome.err m ∧
      (isTransientErr m = true ∨ isCaptionsNotFoundErr m = false)) :
    ∀ langs st, st.foundTranscript = false →
    (runLanguages f g pw langs st).1 =
      langs.flatMap (fun l => Event.rateAcquire l ::
        [Event.fetchCall l 0, Event.sleep l 2, Event.fetchCall l 1,
         Event.sleep l 4, Event.fetchCall l 2]) ∧
    (runLanguages f g pw langs st).2.foundTranscript = false ∧
    (runLanguages f g pw langs st).2.error = st.error ∧
    (runLanguages f g pw langs st).2.profanity = st.profanity := by
  intro langs
  induction langs with
  | nil => intro st hst; exact ⟨rfl, hst, rfl, rfl⟩
  | cons lang rest ih =>
    intro st hst
    have hatt := runAttempts_err_all f g pw lang st (h lang)
    have hfound : (runAttempts f g pw lang maxRetries 0 st).2.foundTranscript = false := by
      rw [hatt]; exact hst
    obtain ⟨ih1, ih2, ih3, ih4⟩ := ih (runAttempts f g pw lang maxRetries 0 st).2 hfound
    refine ⟨?_, ?_, ?_, ?_⟩
    · simp only [runLanguages, hfound, Bool.false_eq_true, if_false, List.flatMap_cons]
      rw [ih1]
      have : (runAttempts f g pw lang maxRetries 0 st).1 =
        [Event.fetchCall lang 0, Event.sleep lang 2, Event.fetchCall lang 1,
         Event.sleep lang 4, Event.fetchCall lang 2] := by rw [hatt]
      rw [this]
      simp
    · simp only [runLanguages, hfound, Bool.false_eq_true, if_false]
      exact ih2
    · simp only [runLanguages, hfound, Bool.false_eq_true, if_false]
      rw [ih3, hatt]
    · simp only [runLanguages, hfound, Bool.false_eq_true, if_false]
      rw [ih4, hatt]

theorem fieldsCore_map_toLower : ∀ (s acc : Str),
    fieldsCore (lowerStr acc) (lowerStr s) = (fieldsCore acc s).map lowerStr := by
  intro s
  induction s with
  | nil =>
    intro acc
    by_cases h : acc = []
    · subst h; simp [fieldsCore, lowerStr]
    · have h1 : acc.isEmpty = false := by simp [h]
      have h2 : (List.map Char.toLower acc).isEmpty = false := by simp [h]
      simp [fieldsCore, lowerStr, h1, h2]
  | cons c cs ih =>
    intro acc
    simp only [lowerStr, List.map_cons, fieldsCore, toLower_isWhitespace]
    by_cases hw : c.isWhitespace
    · simp only [hw, if_true]
      have hnil := ih []
      simp only [lowerStr, List.map_nil] at hnil
      by_cases h : acc = []
      · subst h
        simp [fieldsCore, hw, hnil, lowerStr]
      · have h1 : acc.isEmpty = false := by simp [h]
        have h2 : (List.map Char.toLower acc).isEmpty = false := by simp [h]
        simp [fieldsCore, hw, h1, h2, hnil, lowerStr]
    · have hst := ih (c :: acc)
      simp only [lowerStr, List.map_cons] at hst
      simp [fieldsCore, hw, hst, lowerStr]

theorem goFields_lower (text : Str) :
    goFields (lowerStr text) = (goFields text).map lowerStr := by
  have := fieldsCore_map_toLower text []
  simpa [goFields, lowerStr] using this

theorem lowerStr_idem (s : Str) : lowerStr (lowerStr s) = lowerStr s := by
  simp only [lowerStr, List.map_map]
  apply List.map_congr_left
  intro c _
  exact toLower_idem c

/-- If a response carries a non-empty error, the handler sends an error
reply carrying that error (profanity verdict not delivered). -/
theorem handlerReply_of_error_ne {r : TranscriptResponse} (h : r.error ≠ []) :
    ∃ s, handlerReply r = HandlerReply.errorReply s r.error := by
  have hne : r.error.isEmpty = false := by simp [h]
  simp only [handlerReply, hne, Bool.false_eq_true, if_false]
  split
  · exact ⟨404, rfl⟩
  · split
    · exact ⟨404, rfl⟩
    · split
      · exact ⟨403, rfl⟩
      · exact ⟨500, rfl⟩

/-- C1 counterexample: with an upstream oracle that always reports
"video is private" (a Forbidden classification), the worker still goes on
to fetch the next language ("en-US") after the first language ("en")
failed with that error, so the language loop is not terminated. -/
theorem C1_counterexample :
    errIsPrivate "video is private".data = true ∧
    isTransientErr "video is private".data = false ∧
    isCaptionsNotFoundErr "video is private".data = false ∧
    (processJob fetchAlwaysPrivate fmtOkId [] jobDefaultEn).1.contains
      (Event.fetchCall "en".data 0) = true ∧
    (processJob fetchAlwaysPrivate fmtOkId [] jobDefaultEn).1.contains
      (Event.fetchCall "en-US".data 0) = true := by
  refine ⟨by decide, by decide, by decide, by decide, by decide⟩

/-- C1 (amended): a Forbidden (private) error is not special-cased by the
resolve loop: when every attempt of every language fails with such an
error, the worker performs the full `maxRetries` attempts with backoff for
EVERY language of the fallback list (no short-circuit), and the job ends
in a failure Result. -/
theorem C1_forbidden_no_short_circuit (f : Str → Nat → FetchOutcome)
    (g : Transcript → Except Str Str) (pw : List Str) (job : Job)
    (h : ∀ lang att, att < maxRetries → ∃ m, f lang att = FetchOutcome.err m ∧
      errIsPrivate m = true ∧ isTransientErr m = false ∧ isCaptionsNotFoundErr m = false) :
    (processJob f g pw job).1 =
      (expandLanguages job.languages).flatMap (fun l => Event.rateAcquire l ::
        [Event.fetchCall l 0, Event.sleep l 2, Event.fetchCall l 1,
         Event.sleep l 4, Event.fetchCall l 2]) ++
      [Event.emit (processJob f g pw job).2] ∧
    (processJob f g pw job).2.error ≠ [] := by
  have h2 : ∀ lang att, att < maxRetries → ∃ m, f lang att = FetchOutcome.err m ∧
      (isTransientErr m = true ∨ isCaptionsNotFoundErr m = false) := by
    intro lang att ha
    obtain ⟨m, hm, _, _, hc⟩ := h lang att ha
    exact ⟨m, hm, Or.inr hc⟩
  obtain ⟨e1, e2, e3, _⟩ :=
    runLanguages_err_all f g pw h2 (expandLanguages job.languages) initState rfl
  constructor
  · simp only [processJob]
    rw [e1]
  · simp only [processJob]
    have he : (runLanguages f g pw (expandLanguages job.languages) initState).2.error = [] := by
      rw [e3]; rfl
    simp [e2, he]
    exact synthFinalError_ne_nil _ _ _

/-- C1 amended witness: the all-private oracle on a single-language job. -/
theorem C1_forbidden_no_short_circuit_witness :
    (∀ lang att, att < maxRetries → ∃ m,
      fetchAlwaysPrivate lang att = FetchOutcome.err m ∧
      errIsPrivate m = true ∧ isTransientErr m = false ∧ isCaptionsNotFoundErr m = false) ∧
    ((processJob fetchAlwaysPrivate fmtOkId [] jobExplicitFr).1 =
      (expandLanguages jobExplicitFr.languages).flatMap (fun l => Event.rateAcquire l ::
        [Event.fetchCall l 0, Event.sleep l 2, Event.fetchCall l 1,
         Event.sleep l 4, Event.fetchCall l 2]) ++
      [Event.emit (processJob fetchAlwaysPrivate fmtOkId [] jobExplicitFr).2] ∧
    (processJob fetchAlwaysPrivate fmtOkId [] jobExplicitFr).2.error ≠ []) := by
  have hw : ∀ lang att, att < maxRetries → ∃ m,
      fetchAlwaysPrivate lang att = FetchOutcome.err m ∧
      errIsPrivate m = true ∧ isTransientErr m = false ∧ isCaptionsNotFoundErr m = false :=
    fun lang att _ => ⟨"video is private".data, rfl, by decide, by decide, by decide⟩
  exact ⟨hw, C1_forbidden_no_short_circuit fetchAlwaysPrivate fmtOkId [] jobExplicitFr hw⟩

/-- C2 counterexample: a caller-supplied explicit tag equal to "en" is NOT
kept as the single-element list — the worker expands it to the full
fallback list, because it cannot distinguish an explicit "en" from the
default. -/
theorem C2_counterexample :
    expandLanguages (handlerLanguages "en".data) ≠ ["en".data] := by decide

/-- C2 (amended): for an explicit non-empty tag other than "en", the
fallback list used by the worker is exactly the single-element list
containing that tag; an explicit "en" is instead expanded. -/
theorem C2_explicit_tag_singleton (tag : Str) (h1 : tag ≠ []) (h2 : tag ≠ "en".data) :
    expandLanguages (handlerLanguages tag) = [tag] := by
  have he : tag.isEmpty = false := by simp [h1]
  simp [handlerLanguages, he, expandLanguages, h2]

/-- C2 amended witness: the explicit tag "fr". -/
theorem C2_explicit_tag_singleton_witness :
    ("fr".data ≠ ([] : Str) ∧ "fr".data ≠ "en".data) ∧
    expandLanguages (handlerLanguages "fr".data) = ["fr".data] :=
  ⟨⟨by decide, by decide⟩, C2_explicit_tag_singleton "fr".data (by decide) (by decide)⟩

/-- C3 counterexample: when every fetch for the (only) language "fr"
succeeds with an empty transcript list, the worker does NOT break out of
the retry loop: it performs a second attempt and a backoff sleep for the
same language, and records no error at all. -/
theorem C3_counterexample :
    (processJob fetchAlwaysEmptyOk fmtOkId [] jobExplicitFr).1.contains
      (Event.fetchCall "fr".data 1) = true ∧
    (processJob fetchAlwaysEmptyOk fmtOkId [] jobExplicitFr).1.contains
      (Event.sleep "fr".data 2) = true ∧
    (runLanguages fetchAlwaysEmptyOk fmtOkId [] ["fr".data] initState).2.lastError = none := by
  refine ⟨by decide, by decide, by decide⟩

/-- C3 (amended): on success with an empty transcript list the worker
keeps retrying that language with backoff (all `maxRetries` attempts,
sleeping 2 then 4 seconds), records no error and leaves the loop state
unchanged, and then proceeds to the next language. -/
theorem C3_empty_success_retries (f : Str → Nat → FetchOutcome)
    (g : Transcript → Except Str Str) (pw : List Str)
    (lang : Str) (rest : List Str) (st : LoopState)
    (hst : st.foundTranscript = false)
    (h : ∀ att, att < maxRetries → f lang att = FetchOutcome.ok []) :
    runLanguages f g pw (lang :: rest) st =
      (Event.rateAcquire lang ::
        ([Event.fetchCall lang 0, Event.sleep lang 2, Event.fetchCall lang 1,
          Event.sleep lang 4, Event.fetchCall lang 2] ++ (runLanguages f g pw rest st).1),
       (runLanguages f g pw rest st).2) := by
  have hatt := runAttempts_empty_ok f g pw lang st h
  simp only [runLanguages, hatt, hst]
  simp [hst]

/-- C3 amended witness: the empty-success oracle on language "fr". -/
theorem C3_empty_success_retries_witness :
    (initState.foundTranscript = false ∧
     (∀ att, att < maxRetries → fetchAlwaysEmptyOk "fr".data att = FetchOutcome.ok [])) ∧
    runLanguages fetchAlwaysEmptyOk fmtOkId [] ("fr".data :: []) initState =
      (Event.rateAcquire "fr".data ::
        ([Event.fetchCall "fr".data 0, Event.sleep "fr".data 2, Event.fetchCall "fr".data 1,
          Event.sleep "fr".data 4, Event.fetchCall "fr".data 2] ++
         (runLanguages fetchAlwaysEmptyOk fmtOkId [] [] initState).1),
       (runLanguages fetchAlwaysEmptyOk fmtOkId [] [] initState).2) :=
  ⟨⟨rfl, fun _ _ => rfl⟩,
   C3_empty_success_retries fetchAlwaysEmptyOk fmtOkId [] "fr".data [] initState rfl
     (fun _ _ => rfl)⟩

/-- C4 counterexample: a format failure on the first language ("en")
records a failure message in the Result, then a successful fetch of the
next language ("en-US") computes a profanity verdict — the delivered
Result carries a populated error AND a verdict computed from a
successfully fetched transcript at the same time. -/
theorem C4_counterexample :
    (processJob fetchEnThenEnUS fmtFailOnT1 ["damn".data] jobDefaultEn).2.profanity = true ∧
    (processJob fetchEnThenEnUS fmtFailOnT1 ["damn".data] jobDefaultEn).2.error =
      formatErrorMsg "boom".data ∧
    (processJob fetchEnThenEnUS fmtFailOnT1 ["damn".data] jobDefaultEn).2.error ≠ [] := by
  refine ⟨by decide, by decide, by decide⟩

/-- C4 (amended): a worker Result can carry a populated error and a
computed profanity verdict simultaneously, but the flagged value is only
delivered to the caller when the failure field is absent: the handler
returns the ok reply carrying the profanity verdict if and only if the
Result's error is empty. -/
theorem C4_flagged_delivered_iff_no_error (f : Str → Nat → FetchOutcome)
    (g : Transcript → Except Str Str) (pw : List Str) (job : Job) :
    handlerReply (processJob f g pw job).2 =
      HandlerReply.okReply (processJob f g pw job).2.videoID
        (processJob f g pw job).2.profanity ↔
    (processJob f g pw job).2.error = [] := by
  constructor
  · intro hr
    by_cases he : (processJob f g pw job).2.error = []
    · exact he
    · obtain ⟨s, hs⟩ := handlerReply_of_error_ne he
      rw [hs] at hr
      exact absurd hr (by simp)
  · intro he
    have hi : (processJob f g pw job).2.error.isEmpty = true := by simp [he]
    simp [handlerReply, hi]

/-- C5: for every job, the worker emits exactly one Result — the trace of
the resolve loop contains exactly one emission event, carrying the job's
response, regardless of which branches were taken — and the response slot
the handler allocates is a capacity-1 channel. -/
theorem C5_exactly_one_emit (f : Str → Nat → FetchOutcome)
    (g : Transcript → Except Str Str) (pw : List Str) (job : Job) :
    (processJob f g pw job).1.filter isEmitEv = [Event.emit (processJob f g pw job).2] ∧
    responseChannelCapacity = 1 := by
  constructor
  · simp only [processJob]
    rw [List.filter_append]
    have h1 : (runLanguages f g pw (expandLanguages job.languages) initState).1.filter
        isEmitEv = [] := by
      rw [List.filter_eq_nil_iff]
      intro e he
      simp [runLanguages_no_emit f g pw _ _ e he]
    rw [h1]
    rfl
  · rfl

/-- C7: the rate gate is acquired exactly once per attempted language —
the trace is, for some prefix of the fallback list, one rate-gate wait
per language followed by that language's retry-loop events, and the retry
loop itself never contains a rate-gate wait. -/
theorem C7_rate_gate_once_per_language (f : Str → Nat → FetchOutcome)
    (g : Transcript → Except Str Str) (pw : List Str) (job : Job) :
    (∃ n, (processJob f g pw job).1 =
      ((expandLanguages job.languages).take n).flatMap
        (fun l => Event.rateAcquire l :: (runAttempts f g pw l maxRetries 0 initState).1)
      ++ [Event.emit (processJob f g pw job).2]) ∧
    (∀ l, (runAttempts f g pw l maxRetries 0 initState).1.filter isRateAcquireEv = []) := by
  constructor
  · obtain ⟨n, hn⟩ := runLanguages_shape f g pw (expandLanguages job.languages) initState
    refine ⟨n, ?_⟩
    simp only [processJob]
    rw [hn]
  · intro l
    rw [List.filter_eq_nil_iff]
    intro e he
    rw [runAttempts_fst] at he
    simp [(attemptsTrace_events f g l _ _ e he).2]

/-- C8: for a job using the default language tag, the fallback list the
worker iterates is the fixed ordered list of common tags, has no
duplicate tags, and starts with the default tag "en". -/
theorem C8_default_fallback_list :
    expandLanguages (handlerLanguages []) = fallbackLanguages ∧
    fallbackLanguages.Nodup ∧
    fallbackLanguages.head? = some "en".data := by
  refine ⟨by decide, by decide, by decide⟩

/-- C6: for a language whose every upstream attempt yields a transient
(network/timeout) error, the worker performs exactly `maxRetries` = 3
fetch attempts, sleeping the strictly increasing backoff delays of 2
seconds before the second attempt and 4 seconds before the third, and
then proceeds to the next language of the fallback list. -/
theorem C6_transient_exhausts_retries (f : Str → Nat → FetchOutcome)
    (g : Transcript → Except Str Str) (pw : List Str)
    (lang : Str) (rest : List Str) (st : LoopState)
    (hst : st.foundTranscript = false)
    (h : ∀ att, att < maxRetries → isTransientOutcome (f lang att) = true) :
    runLanguages f g pw (lang :: rest) st =
      (Event.rateAcquire lang ::
        ([Event.fetchCall lang 0, Event.sleep lang 2, Event.fetchCall lang 1,
          Event.sleep lang 4, Event.fetchCall lang 2] ++
         (runLanguages f g pw rest
           { st with lastError := outcomeErrMsg (f lang 2) }).1),
       (runLanguages f g pw rest { st with lastError := outcomeErrMsg (f lang 2) }).2) := by
  have h2 : ∀ att, att < maxRetries → ∃ m, f lang att = FetchOutcome.err m ∧
      (isTransientErr m = true ∨ isCaptionsNotFoundErr m = false) := by
    intro att ha
    have ht := h att ha
    cases hf : f lang att with
    | err m =>
      rw [hf] at ht
      exact ⟨m, rfl, Or.inl (by simpa [isTransientOutcome] using ht)⟩
    | ok ts =>
      rw [hf] at ht
      simp [isTransientOutcome] at ht
  have hatt := runAttempts_err_all f g pw lang st h2
  simp only [runLanguages, hatt, hst]
  simp [hst]

/-- C6 witness: the always-timeout oracle on language "fr". -/
theorem C6_transient_exhausts_retries_witness :
    (initState.foundTranscript = false ∧
     (∀ att, att < maxRetries →
       isTransientOutcome (fetchAlwaysTimeout "fr".data att) = true)) ∧
    runLanguages fetchAlwaysTimeout fmtOkId [] ("fr".data :: []) initState =
      (Event.rateAcquire "fr".data ::
        ([Event.fetchCall "fr".data 0, Event.sleep "fr".data 2, Event.fetchCall "fr".data 1,
          Event.sleep "fr".data 4, Event.fetchCall "fr".data 2] ++
         (runLanguages fetchAlwaysTimeout fmtOkId [] []
           { initState with
             lastError := outcomeErrMsg (fetchAlwaysTimeout "fr".data 2) }).1),
       (runLanguages fetchAlwaysTimeout fmtOkId [] []
         { initState with
           lastError := outcomeErrMsg (fetchAlwaysTimeout "fr".data 2) }).2) :=
  ⟨⟨rfl, fun _ _ => rfl⟩,
   C6_transient_exhausts_retries fetchAlwaysTimeout fmtOkId [] "fr".data [] initState rfl
     (fun _ _ => rfl)⟩

/-- C9: the vocabulary check returns true if and only if some
whitespace-delimited token of the text, compared case-insensitively
(i.e. after lowercasing), is a member of the set of flagged tokens. -/
theorem C9_contains_profanity_iff (pw : List Str) (text : Str) :
    containsProfanity pw text = true ↔ ∃ w ∈ goFields text, lowerStr w ∈ pw := by
  unfold containsProfanity
  rw [goFields_lower, List.any_map, List.any_eq_true]
  constructor
  · rintro ⟨w, hw, hc⟩
    exact ⟨w, hw, by simpa using hc⟩
  · rintro ⟨w, hw, hc⟩
    exact ⟨w, hw, by simpa using hc⟩

/-- C10: every token stored by the word-list loader is non-empty and is
identical to its own lowercasing (surrounding whitespace trimmed, blank
lines skipped). -/
theorem C10_loaded_words_lowercase (lines : List Str) (w : Str)
    (hw : w ∈ loadProfanityWords lines) :
    w ≠ [] ∧ lowerStr w = w := by
  unfold loadProfanityWords at hw
  rw [List.mem_filterMap] at hw
  obtain ⟨line, _, hline⟩ := hw
  by_cases he : (trimStr line).isEmpty
  · simp [he] at hline
  · simp only [he, Bool.false_eq_true, if_false, Option.some.injEq] at hline
    subst hline
    constructor
    · intro hc
      simp only [lowerStr, List.map_eq_nil_iff] at hc
      simp [hc] at he
    · exact lowerStr_idem _

/-- C10 witness: the word-list line "  Damn " is stored as "damn". -/
theorem C10_loaded_words_lowercase_witness :
    ("damn".data ∈ loadProfanityWords ["  Damn ".data]) ∧
    ("damn".data ≠ [] ∧ lowerStr "damn".data = "damn".data) :=
  ⟨by decide, C10_loaded_words_lowercase ["  Damn ".data] "damn".data (by decide)⟩

end YPC

